import Mathlib

/-!
Shallow embedding of the worldbuilding-mvp repository core: the document
ledger (src/src/worldbuild/domain/ledger.py), the entity data model
(src/src/worldbuild/domain/entities.py and src/src/resonance/domain/entities.py)
and the paragraph chunker (src/src/resonance/infrastructure/services/chunkers.py).
Python dicts keyed by normalized name are embedded as association lists in
insertion order, mirroring the OrderedDict used by the ledger; optional ints
are Option Int; Python string methods used by the code (strip, lower, split)
are embedded explicitly below.
-/

/-- Characters treated as whitespace by the Python str.strip used in the
ledger key normalization and the chunker (ASCII whitespace set). -/
def isPySpace (c : Char) : Bool :=
  c == ' ' || c == '\t' || c == '\n' || c == '\r' || c == '\x0b' || c == '\x0c'

/-- Embedding of Python str.strip(): drop whitespace from both ends. -/
def pyStrip (s : String) : String :=
  ⟨((s.data.dropWhile isPySpace).reverse.dropWhile isPySpace).reverse⟩

/-- Embedding of Python str.lower() on the ASCII range. -/
def pyLower (s : String) : String :=
  ⟨s.data.map Char.toLower⟩

namespace Worldbuild

/-- EntityType from src/src/worldbuild/domain/entities.py: the worldbuild
variant of the enum has exactly four members. -/
inductive EntityType where
  | character
  | location
  | organization
  | item
deriving DecidableEq, Repr

/-- The string value carried by each worldbuild EntityType member. -/
def EntityType.value : EntityType → String
  | .character => "character"
  | .location => "location"
  | .organization => "organization"
  | .item => "item"

/-- All members of the worldbuild EntityType enum. -/
def allEntityTypes : List EntityType :=
  [.character, .location, .organization, .item]

/-- WorldEntity from src/src/worldbuild/domain/entities.py. -/
structure WorldEntity where
  id : Option Int
  chunk_id : Option Int
  entity_type : EntityType
  name : String
  description : String
  metadata : List (String × Option String)
deriving DecidableEq, Repr

/-- Relation from src/src/worldbuild/domain/entities.py. -/
structure Relation where
  id : Option Int
  predicate : String
  subject_entity_id : Option Int
  subject_name : Option String
  object_entity_id : Option Int
  object_name : Option String
  description : Option String
  metadata : List (String × Option String)
deriving DecidableEq, Repr

/-- DocumentLedger._key: name.strip().lower(). -/
def pyKey (name : String) : String :=
  pyLower (pyStrip name)

/-- Python membership test `key in dict` on the assoc-list embedding. -/
def hasKey (l : List (String × WorldEntity)) (k : String) : Bool :=
  l.any (fun p => p.1 == k)

/-- Python `dict.get(key)` on the assoc-list embedding: first binding wins
(an OrderedDict never holds two bindings for one key). -/
def getKey (l : List (String × WorldEntity)) (k : String) : Option WorldEntity :=
  (l.find? (fun p => p.1 == k)).map Prod.snd

/-- Python `dict[key] = value` on the assoc-list embedding: replace the
binding in place when the key is present, append otherwise (OrderedDict
assignment keeps the original position of an existing key). -/
def setKey : List (String × WorldEntity) → String → WorldEntity → List (String × WorldEntity)
  | [], k, v => [(k, v)]
  | p :: ps, k, v => if p.1 = k then (k, v) :: ps else p :: setKey ps k v

/-- DocumentLedger from src/src/worldbuild/domain/ledger.py: a mapping of
canonical entity names to stored entities, in insertion order. -/
structure DocumentLedger where
  entities : List (String × WorldEntity)
deriving DecidableEq, Repr

/-- A freshly constructed DocumentLedger. -/
def DocumentLedger.empty : DocumentLedger := ⟨[]⟩

/-- DocumentLedger.register_entities: record newly extracted entities in
input order, skipping any whose normalized key is already present, and
return the novel ones. Returns the updated ledger with the novel list. -/
def DocumentLedger.registerEntities : DocumentLedger → List WorldEntity → DocumentLedger × List WorldEntity
  | l, [] => (l, [])
  | l, e :: es =>
    let k := pyKey e.name
    if hasKey l.entities k then
      DocumentLedger.registerEntities l es
    else
      let res := DocumentLedger.registerEntities ⟨l.entities ++ [(k, e)]⟩ es
      (res.1, e :: res.2)

/-- DocumentLedger.update_with_stored: store entities that now have database
ids, overwriting the binding at each normalized-name key. -/
def DocumentLedger.updateWithStored : DocumentLedger → List WorldEntity → DocumentLedger
  | l, [] => l
  | l, e :: es => DocumentLedger.updateWithStored ⟨setKey l.entities (pyKey e.name) e⟩ es

/-- DocumentLedger._lookup: when an id is given, linear scan of stored
entities for a matching id; otherwise a truthy name (non-empty) is looked up
by normalized key; otherwise nothing. -/
def DocumentLedger.lookup (l : DocumentLedger) (entityId : Option Int) (name : Option String) : Option WorldEntity :=
  match entityId with
  | some i => (l.entities.find? (fun p => p.2.id == some i)).map Prod.snd
  | none =>
    match name with
    | some n => if n = "" then none else getKey l.entities (pyKey n)
    | none => none

/-- One step of DocumentLedger.resolve_relations: model_copy of the input
relation with only the two endpoint id fields updated from lookups. -/
def DocumentLedger.resolveRelation (l : DocumentLedger) (r : Relation) : Relation :=
  let subject := l.lookup r.subject_entity_id r.subject_name
  let obj := l.lookup r.object_entity_id r.object_name
  { r with
    subject_entity_id := match subject with
      | some e => e.id
      | none => r.subject_entity_id
    object_entity_id := match obj with
      | some e => e.id
      | none => r.object_entity_id }

/-- DocumentLedger.resolve_relations: fill in missing subject and object ids
for each input relation, in order. -/
def DocumentLedger.resolveRelations (l : DocumentLedger) (rs : List Relation) : List Relation :=
  rs.map l.resolveRelation

/-- Spec-side rendering of the register contract: keep each candidate whose
normalized name is not already a known key and did not occur earlier in the
input, accumulating every seen key. -/
def novelFilter (ks : List String) : List WorldEntity → List WorldEntity
  | [] => []
  | e :: es =>
    if pyKey e.name ∈ ks then novelFilter (pyKey e.name :: ks) es
    else e :: novelFilter (pyKey e.name :: ks) es

/-- The keys of a ledger state, in insertion order. -/
def ledgerKeys (l : DocumentLedger) : List String :=
  l.entities.map Prod.fst

/-- The ledger invariant: no two bindings share a normalized-name key. -/
def keysNodup (l : DocumentLedger) : Prop :=
  (l.entities.map Prod.fst).Nodup

/-- The last entity of a list whose normalized name is a given key. -/
def lastWithKey (es : List WorldEntity) (k : String) : Option WorldEntity :=
  (es.filter (fun e => pyKey e.name == k)).getLast?

/-- Two relations agree on every field except the two endpoint id fields. -/
def sameExceptIds (a b : Relation) : Prop :=
  a.id = b.id ∧ a.predicate = b.predicate ∧ a.subject_name = b.subject_name ∧
    a.object_name = b.object_name ∧ a.description = b.description ∧ a.metadata = b.metadata

end Worldbuild

namespace Resonance

/-- EntityType from src/src/resonance/domain/entities.py: the resonance
variant of the enum has exactly seven members. -/
inductive EntityType where
  | character
  | location
  | organization
  | item
  | faction
  | event
  | concept
deriving DecidableEq, Repr

/-- The string value carried by each resonance EntityType member. -/
def EntityType.value : EntityType → String
  | .character => "character"
  | .location => "location"
  | .organization => "organization"
  | .item => "item"
  | .faction => "faction"
  | .event => "event"
  | .concept => "concept"

/-- All members of the resonance EntityType enum. -/
def allEntityTypes : List EntityType :=
  [.character, .location, .organization, .item, .faction, .event, .concept]

/-- The seven category tags named by the specification. -/
def specCategoryTags : List String :=
  ["character", "location", "organization", "item", "faction", "event", "concept"]

/-- Embedding of Python text.split on the two-newline separator used by the
chunker: non-overlapping left-to-right scan, keeping empty pieces. The first
argument is the rest of the text, the second the reversed current piece. -/
def splitParas : List Char → List Char → List (List Char)
  | '\n' :: '\n' :: cs, acc => acc.reverse :: splitParas cs []
  | c :: cs, acc => splitParas cs (c :: acc)
  | [], acc => [acc.reverse]

/-- Split a character list on single spaces, keeping empty pieces. -/
def splitOnSpace : List Char → List Char → List (List Char)
  | [], acc => [acc.reverse]
  | c :: cs, acc =>
    if c = ' ' then acc.reverse :: splitOnSpace cs []
    else splitOnSpace cs (c :: acc)

/-- Greedy line filling of textwrap: add the next word when the line plus a
separating space still fits in the width, otherwise emit the line. -/
def greedyWrap (width : Nat) : List String → String → List String
  | [], cur => if cur = "" then [] else [cur]
  | w :: ws, cur =>
    if cur = "" then greedyWrap width ws w
    else if cur.length + 1 + w.length ≤ width then greedyWrap width ws (cur ++ " " ++ w)
    else cur :: greedyWrap width ws w

/-- Embedding of Python textwrap.wrap(text, width) with its default options
for text whose whitespace runs are single characters and whose words are no
longer than the width: every whitespace character is replaced by a space,
the text is split into words, and lines are filled greedily. textwrap
raises ValueError when the width is not positive; that error path is
embedded as none. -/
def pyWrap (width : Nat) (s : String) : Option (List String) :=
  if width = 0 then none
  else
    let cleaned := s.data.map (fun c => if isPySpace c then ' ' else c)
    let ws := (splitOnSpace cleaned []).filter (fun w => w ≠ [])
    some (greedyWrap width (ws.map (fun w => (⟨w⟩ : String))) "")

/-- Embedding of the Python expression `chunks or [text]`: the default when
the list is empty. -/
def pyListOr (chunks : List String) (dflt : List String) : List String :=
  if chunks.isEmpty then dflt else chunks

/-- The chunk-accumulating loop of SimpleParagraphChunker.chunk: paragraphs
within the soft limit are kept whole, longer ones go through textwrap.wrap,
and a ValueError raised by wrap aborts the loop (none propagates). -/
def collectChunks (maxChars : Nat) : List String → Option (List String)
  | [] => some []
  | p :: ps =>
    match (if p.length ≤ maxChars then some [p] else pyWrap maxChars p) with
    | none => none
    | some ys =>
      match collectChunks maxChars ps with
      | none => none
      | some rest => some (ys ++ rest)

/-- SimpleParagraphChunker.chunk from
src/src/resonance/infrastructure/services/chunkers.py: split on blank lines,
strip each paragraph and drop the empty ones, keep paragraphs within the
soft limit as single chunks and wrap longer ones, falling back to the whole
text when nothing remains. A ValueError escaping from textwrap.wrap (width
zero on an over-long paragraph) propagates out of chunk, embedded as none. -/
def chunk (maxChars : Nat) (text : String) : Option (List String) :=
  let paragraphs := ((splitParas text.data []).map (fun p => pyStrip ⟨p⟩)).filter (fun p => p ≠ "")
  match collectChunks maxChars paragraphs with
  | none => none
  | some chunks => some (pyListOr chunks [text])

/-- Whether the first string occurs contiguously inside the second. -/
def occursIn (a b : String) : Bool :=
  b.data.tails.any (fun t => a.data.isPrefixOf t)

end Resonance

namespace Worldbuild

/-- Concrete entity named Alpha used by the worked examples. -/
def alphaEntity : WorldEntity := ⟨none, none, .location, "Alpha", "desc", []⟩

/-- Concrete entity named alpha (lowercase) used by the worked examples. -/
def lowerAlphaEntity : WorldEntity := ⟨none, none, .location, "alpha", "desc", []⟩

/-- Concrete entity named Beta used by the worked examples. -/
def betaEntity : WorldEntity := ⟨none, none, .location, "Beta", "desc", []⟩


theorem hasKey_iff_mem (l : List (String × WorldEntity)) (k : String) :
    hasKey l k = true ↔ k ∈ l.map Prod.fst := by
  simp [hasKey, List.any_eq_true, List.mem_map, beq_iff_eq]

theorem registerEntities_cons_true {l : DocumentLedger} {e : WorldEntity} {es : List WorldEntity}
    (hk : hasKey l.entities (pyKey e.name) = true) :
    l.registerEntities (e :: es) = l.registerEntities es := by
  simp [DocumentLedger.registerEntities, hk]

theorem registerEntities_cons_false {l : DocumentLedger} {e : WorldEntity} {es : List WorldEntity}
    (hk : hasKey l.entities (pyKey e.name) = false) :
    l.registerEntities (e :: es)
      = (((DocumentLedger.mk (l.entities ++ [(pyKey e.name, e)])).registerEntities es).1,
          e :: ((DocumentLedger.mk (l.entities ++ [(pyKey e.name, e)])).registerEntities es).2) := by
  simp [DocumentLedger.registerEntities, hk]

theorem find?_eq_none_of_hasKey_eq_false {l : List (String × WorldEntity)} {k : String}
    (h : hasKey l k = false) : l.find? (fun p => p.1 == k) = none := by
  rw [List.find?_eq_none]
  intro p hp
  simp only [hasKey, List.any_eq_false] at h
  exact fun hb => h p hp hb

theorem find?_append_of_none {α : Type} {p : α → Bool} {l₁ l₂ : List α}
    (h : l₁.find? p = none) : (l₁ ++ l₂).find? p = l₂.find? p := by
  induction l₁ with
  | nil => rfl
  | cons a l ih =>
    cases hpa : p a with
    | true =>
      rw [List.find?_cons_of_pos _ hpa] at h
      exact absurd h (by simp)
    | false =>
      rw [List.find?_cons_of_neg _ (by simp [hpa])] at h
      rw [List.cons_append, List.find?_cons_of_neg _ (by simp [hpa])]
      exact ih h

theorem registerEntities_snd_eq_novelFilter_aux :
    ∀ (es : List WorldEntity) (l : DocumentLedger) (ks : List String),
      (∀ s, hasKey l.entities s = true ↔ s ∈ ks) →
      (l.registerEntities es).2 = novelFilter ks es := by
  intro es
  induction es with
  | nil => intro l ks _; rfl
  | cons e es ih =>
    intro l ks h
    cases hk : hasKey l.entities (pyKey e.name) with
    | true =>
      have hmem : pyKey e.name ∈ ks := (h _).mp hk
      rw [registerEntities_cons_true hk]
      simp only [novelFilter, if_pos hmem]
      apply ih
      intro s
      rw [h s, List.mem_cons]
      constructor
      · exact fun hs => Or.inr hs
      · intro hs
        rcases hs with hs | hs
        · subst hs; exact (h _).mp hk
        · exact hs
    | false =>
      have hmem : pyKey e.name ∉ ks := fun hmem => by
        rw [← h (pyKey e.name)] at hmem
        rw [hk] at hmem
        exact Bool.false_ne_true hmem
      rw [registerEntities_cons_false hk]
      simp only [novelFilter, if_neg hmem]
      refine congrArg (e :: ·) ?_
      apply ih
      intro s
      rw [hasKey_iff_mem]
      simp only [List.map_append, List.map_cons, List.map_nil, List.mem_append,
        List.mem_cons, List.not_mem_nil, or_false]
      constructor
      · rintro (hs | hs)
        · exact Or.inr ((h s).mp ((hasKey_iff_mem _ _).mpr hs))
        · exact Or.inl hs
      · rintro (hs | hs)
        · exact Or.inr hs
        · exact Or.inl ((hasKey_iff_mem _ _).mp ((h s).mpr hs))

theorem registerEntities_snd_eq_novelFilter (l : DocumentLedger) (es : List WorldEntity) :
    (l.registerEntities es).2 = novelFilter (ledgerKeys l) es := by
  apply registerEntities_snd_eq_novelFilter_aux
  intro s
  exact hasKey_iff_mem l.entities s

theorem registerEntities_fst_eq :
    ∀ (es : List WorldEntity) (l : DocumentLedger),
      (l.registerEntities es).1.entities
        = l.entities ++ ((l.registerEntities es).2.map (fun e => (pyKey e.name, e))) := by
  intro es
  induction es with
  | nil => intro l; simp [DocumentLedger.registerEntities]
  | cons e es ih =>
    intro l
    cases hk : hasKey l.entities (pyKey e.name) with
    | true =>
      rw [registerEntities_cons_true hk]
      exact ih l
    | false =>
      rw [registerEntities_cons_false hk]
      simp only [List.map_cons]
      rw [ih ⟨l.entities ++ [(pyKey e.name, e)]⟩]
      simp [List.append_assoc]

theorem registerEntities_fresh :
    ∀ (es : List WorldEntity) (l : DocumentLedger) (e : WorldEntity),
      e ∈ (l.registerEntities es).2 → hasKey l.entities (pyKey e.name) = false := by
  intro es
  induction es with
  | nil => intro l e he; exact absurd he (List.not_mem_nil e)
  | cons e0 es ih =>
    intro l e he
    cases hk : hasKey l.entities (pyKey e0.name) with
    | true =>
      rw [registerEntities_cons_true hk] at he
      exact ih l e he
    | false =>
      rw [registerEntities_cons_false hk] at he
      rcases List.mem_cons.mp he with he | he
      · subst he; exact hk
      · have hfr := ih ⟨l.entities ++ [(pyKey e0.name, e0)]⟩ e he
        simp only [hasKey, List.any_append, Bool.or_eq_false_iff] at hfr
        exact hfr.1

theorem registerEntities_keys_nodup :
    ∀ (es : List WorldEntity) (l : DocumentLedger),
      ((l.registerEntities es).2.map (fun e => pyKey e.name)).Nodup := by
  intro es
  induction es with
  | nil => intro l; simp [DocumentLedger.registerEntities]
  | cons e es ih =>
    intro l
    cases hk : hasKey l.entities (pyKey e.name) with
    | true =>
      rw [registerEntities_cons_true hk]
      exact ih l
    | false =>
      rw [registerEntities_cons_false hk]
      simp only [List.map_cons, List.nodup_cons]
      refine ⟨?_, ih _⟩
      intro hmem
      rcases List.mem_map.mp hmem with ⟨x, hx, hxk⟩
      have hfr := registerEntities_fresh es ⟨l.entities ++ [(pyKey e.name, e)]⟩ x hx
      simp [hasKey, hxk] at hfr

theorem find?_pairList :
    ∀ (kept : List WorldEntity) (e : WorldEntity),
      ((kept.map (fun x => pyKey x.name)).Nodup) → e ∈ kept →
      (kept.map (fun x => (pyKey x.name, x))).find? (fun p => p.1 == pyKey e.name)
        = some (pyKey e.name, e) := by
  intro kept
  induction kept with
  | nil => intro e _ he; exact absurd he (List.not_mem_nil e)
  | cons x xs ih =>
    intro e hnd he
    simp only [List.map_cons, List.nodup_cons] at hnd
    rcases List.mem_cons.mp he with he | he
    · subst he
      rw [List.map_cons, List.find?_cons_of_pos _ (by simp)]
    · have hne : pyKey x.name ≠ pyKey e.name := by
        intro hcontr
        exact hnd.1 (hcontr ▸ List.mem_map.mpr ⟨e, he, rfl⟩)
      rw [List.map_cons, List.find?_cons_of_neg _ (by simpa using hne)]
      exact ih e hnd.2 he

theorem registerEntities_getKey (l : DocumentLedger) (es : List WorldEntity) (e : WorldEntity)
    (he : e ∈ (l.registerEntities es).2) :
    getKey (l.registerEntities es).1.entities (pyKey e.name) = some e := by
  unfold getKey
  rw [registerEntities_fst_eq,
    find?_append_of_none (find?_eq_none_of_hasKey_eq_false (registerEntities_fresh es l e he)),
    find?_pairList _ e (registerEntities_keys_nodup es l) he]
  rfl

end Worldbuild

namespace Worldbuild

/-- Concrete stored copy of Alpha carrying persistent id 42. -/
def alpha42 : WorldEntity := ⟨some 42, none, .location, "Alpha", "desc", []⟩

/-- Concrete relation referencing Alpha by name with a null subject id. -/
def alphaRel : Relation := ⟨none, "knows", none, some "Alpha", none, none, none, []⟩

/-- Concrete relation whose endpoints name entities never registered. -/
def ghostRel : Relation := ⟨none, "knows", none, some "Ghost", none, some "Phantom", none, []⟩

theorem resolveRelation_subject_name (l : DocumentLedger) (r : Relation) :
    (l.resolveRelation r).subject_name = r.subject_name := rfl

theorem resolveRelation_object_name (l : DocumentLedger) (r : Relation) :
    (l.resolveRelation r).object_name = r.object_name := rfl

theorem resolveRelation_sid_none_of_missing (l : DocumentLedger) (r : Relation)
    (hsid : r.subject_entity_id = none)
    (hname : ∀ n, r.subject_name = some n → getKey l.entities (pyKey n) = none) :
    (l.resolveRelation r).subject_entity_id = none := by
  cases hn : r.subject_name with
  | none => simp [DocumentLedger.resolveRelation, DocumentLedger.lookup, hsid, hn]
  | some n =>
    by_cases hne : n = ""
    · simp [DocumentLedger.resolveRelation, DocumentLedger.lookup, hsid, hn, hne]
    · simp [DocumentLedger.resolveRelation, DocumentLedger.lookup, hsid, hn, hne, hname n hn]

theorem resolveRelation_oid_none_of_missing (l : DocumentLedger) (r : Relation)
    (hoid : r.object_entity_id = none)
    (hname : ∀ n, r.object_name = some n → getKey l.entities (pyKey n) = none) :
    (l.resolveRelation r).object_entity_id = none := by
  cases hn : r.object_name with
  | none => simp [DocumentLedger.resolveRelation, DocumentLedger.lookup, hoid, hn]
  | some n =>
    by_cases hne : n = ""
    · simp [DocumentLedger.resolveRelation, DocumentLedger.lookup, hoid, hn, hne]
    · simp [DocumentLedger.resolveRelation, DocumentLedger.lookup, hoid, hn, hne, hname n hn]

theorem resolveRelation_frame (l : DocumentLedger) (r : Relation) :
    sameExceptIds (l.resolveRelation r) r :=
  ⟨rfl, rfl, rfl, rfl, rfl, rfl⟩

theorem resolveRelation_keeps_some_sid (l : DocumentLedger) (r : Relation) (v : Int)
    (h : r.subject_entity_id = some v) :
    (l.resolveRelation r).subject_entity_id = some v := by
  cases hf : l.entities.find? (fun p => p.2.id == some v) with
  | none => simp [DocumentLedger.resolveRelation, DocumentLedger.lookup, h, hf]
  | some p =>
    have hp := List.find?_some hf
    simp only [beq_iff_eq] at hp
    simp [DocumentLedger.resolveRelation, DocumentLedger.lookup, h, hf, hp]

theorem resolveRelation_keeps_some_oid (l : DocumentLedger) (r : Relation) (v : Int)
    (h : r.object_entity_id = some v) :
    (l.resolveRelation r).object_entity_id = some v := by
  cases hf : l.entities.find? (fun p => p.2.id == some v) with
  | none => simp [DocumentLedger.resolveRelation, DocumentLedger.lookup, h, hf]
  | some p =>
    have hp := List.find?_some hf
    simp only [beq_iff_eq] at hp
    simp [DocumentLedger.resolveRelation, DocumentLedger.lookup, h, hf, hp]

/-- C1: register_entities returns exactly the subsequence of candidates whose
normalized (whitespace-trimmed, lowercased) name did not occur earlier in the
input or already in the ledger, preserving relative input order; the returned
entities have pairwise-distinct normalized names; every returned entity is
retrievable from the updated ledger by its normalized name; and registering
the names Alpha, alpha, Beta returns exactly the Alpha and Beta candidates in
that order. -/
theorem register_entities_returns_novel_subsequence :
    (∀ (l : DocumentLedger) (es : List WorldEntity),
      (l.registerEntities es).2 = novelFilter (ledgerKeys l) es
      ∧ ((l.registerEntities es).2.map (fun e => pyKey e.name)).Nodup
      ∧ ∀ e, e ∈ (l.registerEntities es).2 →
          getKey (l.registerEntities es).1.entities (pyKey e.name) = some e)
    ∧ (DocumentLedger.empty.registerEntities [alphaEntity, lowerAlphaEntity, betaEntity]).2
        = [alphaEntity, betaEntity] := by
  refine ⟨fun l es => ⟨registerEntities_snd_eq_novelFilter l es,
    registerEntities_keys_nodup es l, fun e he => registerEntities_getKey l es e he⟩, ?_⟩
  decide

/-- Closed instance of C1 at the Alpha, alpha, Beta example. -/
theorem register_entities_returns_novel_subsequence_witness :
    (DocumentLedger.empty.registerEntities [alphaEntity, lowerAlphaEntity, betaEntity]).2
        = novelFilter (ledgerKeys DocumentLedger.empty) [alphaEntity, lowerAlphaEntity, betaEntity]
    ∧ alphaEntity ∈ (DocumentLedger.empty.registerEntities [alphaEntity, lowerAlphaEntity, betaEntity]).2
    ∧ getKey (DocumentLedger.empty.registerEntities
          [alphaEntity, lowerAlphaEntity, betaEntity]).1.entities (pyKey alphaEntity.name)
        = some alphaEntity :=
  ⟨(register_entities_returns_novel_subsequence.1 DocumentLedger.empty
      [alphaEntity, lowerAlphaEntity, betaEntity]).1,
   by decide,
   (register_entities_returns_novel_subsequence.1 DocumentLedger.empty
      [alphaEntity, lowerAlphaEntity, betaEntity]).2.2 alphaEntity (by decide)⟩

/-- C2: resolve_relations never fabricates an identifier: an input relation
whose endpoint id is null and whose endpoint name matches no entity held by
the ledger (after normalization) keeps a null endpoint id and its exact
endpoint name in the output. -/
theorem resolve_relations_never_fabricates :
    ∀ (l : DocumentLedger) (rs : List Relation) (i : Nat) (r out : Relation),
      rs[i]? = some r → (l.resolveRelations rs)[i]? = some out →
      (out.subject_name = r.subject_name ∧ out.object_name = r.object_name)
      ∧ (r.subject_entity_id = none →
          (∀ n, r.subject_name = some n → getKey l.entities (pyKey n) = none) →
          out.subject_entity_id = none)
      ∧ (r.object_entity_id = none →
          (∀ n, r.object_name = some n → getKey l.entities (pyKey n) = none) →
          out.object_entity_id = none) := by
  intro l rs i r out hr hout
  rw [DocumentLedger.resolveRelations, List.getElem?_map, hr] at hout
  rw [Option.map_some'] at hout
  cases hout
  exact ⟨⟨resolveRelation_subject_name l r, resolveRelation_object_name l r⟩,
    fun h1 h2 => resolveRelation_sid_none_of_missing l r h1 h2,
    fun h1 h2 => resolveRelation_oid_none_of_missing l r h1 h2⟩

/-- Closed instance of C2 on a relation naming unregistered entities. -/
theorem resolve_relations_never_fabricates_witness :
    (DocumentLedger.empty.resolveRelation ghostRel).subject_name = some "Ghost"
    ∧ (DocumentLedger.empty.resolveRelation ghostRel).subject_entity_id = none
    ∧ (DocumentLedger.empty.resolveRelation ghostRel).object_entity_id = none := by
  have h := resolve_relations_never_fabricates DocumentLedger.empty [ghostRel] 0 ghostRel
    (DocumentLedger.empty.resolveRelation ghostRel) rfl rfl
  exact ⟨h.1.1, h.2.1 rfl (fun n hn => by cases hn; rfl),
    h.2.2 rfl (fun n hn => by cases hn; rfl)⟩

/-- C3: resolve_relations returns a sequence of the same length and order of
new relation values, each agreeing with its input on every field other than
the two endpoint id fields, and an endpoint id that was non-null in the
input is unchanged in the output. -/
theorem resolve_relations_frame :
    ∀ (l : DocumentLedger) (rs : List Relation),
      (l.resolveRelations rs).length = rs.length
      ∧ ∀ (i : Nat) (r out : Relation),
          rs[i]? = some r → (l.resolveRelations rs)[i]? = some out →
          sameExceptIds out r
          ∧ (∀ v, r.subject_entity_id = some v → out.subject_entity_id = some v)
          ∧ (∀ v, r.object_entity_id = some v → out.object_entity_id = some v) := by
  intro l rs
  refine ⟨List.length_map _ _, ?_⟩
  intro i r out hr hout
  rw [DocumentLedger.resolveRelations, List.getElem?_map, hr] at hout
  rw [Option.map_some'] at hout
  cases hout
  exact ⟨resolveRelation_frame l r,
    fun v hv => resolveRelation_keeps_some_sid l r v hv,
    fun v hv => resolveRelation_keeps_some_oid l r v hv⟩

/-- Closed instance of C3 on a relation that already carries a subject id. -/
theorem resolve_relations_frame_witness :
    sameExceptIds (DocumentLedger.empty.resolveRelation
        ⟨none, "knows", some 7, some "Alpha", none, none, none, []⟩)
        ⟨none, "knows", some 7, some "Alpha", none, none, none, []⟩
    ∧ (DocumentLedger.empty.resolveRelation
        ⟨none, "knows", some 7, some "Alpha", none, none, none, []⟩).subject_entity_id
        = some 7 := by
  have h := (resolve_relations_frame DocumentLedger.empty
    [⟨none, "knows", some 7, some "Alpha", none, none, none, []⟩]).2 0
    ⟨none, "knows", some 7, some "Alpha", none, none, none, []⟩
    (DocumentLedger.empty.resolveRelation
      ⟨none, "knows", some 7, some "Alpha", none, none, none, []⟩) rfl rfl
  exact ⟨h.1, h.2.1 7 rfl⟩

/-- C4: after registering Alpha and then updating with a stored Alpha whose
persistent id is 42, resolving a relation that names Alpha with a null
subject id yields subject id 42. -/
theorem update_then_resolve_fills_stored_id :
    (((DocumentLedger.empty.registerEntities [alphaEntity]).1.updateWithStored
        [alpha42]).resolveRelation alphaRel).subject_entity_id = some 42 := by
  decide

end Worldbuild

namespace Worldbuild

theorem relation_ext {a b : Relation} (h1 : a.id = b.id) (h2 : a.predicate = b.predicate)
    (h3 : a.subject_entity_id = b.subject_entity_id) (h4 : a.subject_name = b.subject_name)
    (h5 : a.object_entity_id = b.object_entity_id) (h6 : a.object_name = b.object_name)
    (h7 : a.description = b.description) (h8 : a.metadata = b.metadata) : a = b := by
  cases a
  cases b
  simp_all

theorem sid_second_pass (l : DocumentLedger) (r1 : Relation)
    (h : r1.subject_entity_id = none →
      l.lookup none r1.subject_name = none
        ∨ ∃ e, l.lookup none r1.subject_name = some e ∧ e.id = none) :
    (l.resolveRelation r1).subject_entity_id = r1.subject_entity_id := by
  cases hsid : r1.subject_entity_id with
  | some j => exact resolveRelation_keeps_some_sid l r1 j hsid
  | none =>
    rcases h hsid with hlk | ⟨e, hlk, he⟩
    · simp [DocumentLedger.resolveRelation, hsid, hlk]
    · simp [DocumentLedger.resolveRelation, hsid, hlk, he]

theorem oid_second_pass (l : DocumentLedger) (r1 : Relation)
    (h : r1.object_entity_id = none →
      l.lookup none r1.object_name = none
        ∨ ∃ e, l.lookup none r1.object_name = some e ∧ e.id = none) :
    (l.resolveRelation r1).object_entity_id = r1.object_entity_id := by
  cases hoid : r1.object_entity_id with
  | some j => exact resolveRelation_keeps_some_oid l r1 j hoid
  | none =>
    rcases h hoid with hlk | ⟨e, hlk, he⟩
    · simp [DocumentLedger.resolveRelation, hoid, hlk]
    · simp [DocumentLedger.resolveRelation, hoid, hlk, he]

theorem resolveRelation_idem (l : DocumentLedger) (r : Relation) :
    l.resolveRelation (l.resolveRelation r) = l.resolveRelation r := by
  refine relation_ext rfl rfl ?_ rfl ?_ rfl rfl rfl
  · apply sid_second_pass
    intro hnone
    cases hsid : r.subject_entity_id with
    | some i =>
      have hkeep := resolveRelation_keeps_some_sid l r i hsid
      rw [hkeep] at hnone
      exact absurd hnone (by simp)
    | none =>
      cases hlk : l.lookup none r.subject_name with
      | none =>
        left
        rw [resolveRelation_subject_name]
        exact hlk
      | some e =>
        cases he : e.id with
        | some j =>
          have h1 : (l.resolveRelation r).subject_entity_id = some j := by
            simp [DocumentLedger.resolveRelation, hsid, hlk, he]
          rw [h1] at hnone
          exact absurd hnone (by simp)
        | none =>
          right
          refine ⟨e, ?_, he⟩
          rw [resolveRelation_subject_name]
          exact hlk
  · apply oid_second_pass
    intro hnone
    cases hoid : r.object_entity_id with
    | some i =>
      have hkeep := resolveRelation_keeps_some_oid l r i hoid
      rw [hkeep] at hnone
      exact absurd hnone (by simp)
    | none =>
      cases hlk : l.lookup none r.object_name with
      | none =>
        left
        rw [resolveRelation_object_name]
        exact hlk
      | some e =>
        cases he : e.id with
        | some j =>
          have h1 : (l.resolveRelation r).object_entity_id = some j := by
            simp [DocumentLedger.resolveRelation, hoid, hlk, he]
          rw [h1] at hnone
          exact absurd hnone (by simp)
        | none =>
          right
          refine ⟨e, ?_, he⟩
          rw [resolveRelation_object_name]
          exact hlk

/-- C5: with a fixed ledger state, resolve_relations applied to its own
output yields that output again: the second pass changes nothing. -/
theorem resolve_relations_idempotent :
    ∀ (l : DocumentLedger) (rs : List Relation),
      l.resolveRelations (l.resolveRelations rs) = l.resolveRelations rs := by
  intro l rs
  unfold DocumentLedger.resolveRelations
  rw [List.map_map]
  exact List.map_congr_left (fun r _ => resolveRelation_idem l r)

end Worldbuild

namespace Worldbuild

/-- Concrete second registration candidate named Alpha with another text. -/
def alphaVariant : WorldEntity := ⟨none, none, .location, "Alpha", "other", []⟩

theorem mem_keys_setKey :
    ∀ (ps : List (String × WorldEntity)) (k : String) (v : WorldEntity) (a : String),
      a ∈ (setKey ps k v).map Prod.fst → a ∈ ps.map Prod.fst ∨ a = k := by
  intro ps
  induction ps with
  | nil =>
    intro k v a ha
    simp only [setKey, List.map_cons, List.map_nil, List.mem_singleton] at ha
    exact Or.inr ha
  | cons p ps ih =>
    intro k v a ha
    by_cases hp : p.1 = k
    · simp only [setKey, if_pos hp, List.map_cons, List.mem_cons] at ha
      rcases ha with ha | ha
      · exact Or.inr ha
      · exact Or.inl (List.mem_cons_of_mem _ ha)
    · simp only [setKey, if_neg hp, List.map_cons, List.mem_cons] at ha
      rcases ha with ha | ha
      · exact Or.inl (List.mem_cons.mpr (Or.inl ha))
      · rcases ih k v a ha with h | h
        · exact Or.inl (List.mem_cons_of_mem _ h)
        · exact Or.inr h

theorem setKey_keys_nodup :
    ∀ (ps : List (String × WorldEntity)) (k : String) (v : WorldEntity),
      (ps.map Prod.fst).Nodup → ((setKey ps k v).map Prod.fst).Nodup := by
  intro ps
  induction ps with
  | nil => intro k v _; simp [setKey]
  | cons p ps ih =>
    intro k v h
    simp only [List.map_cons, List.nodup_cons] at h
    by_cases hp : p.1 = k
    · simp only [setKey, if_pos hp, List.map_cons, List.nodup_cons]
      exact ⟨hp ▸ h.1, h.2⟩
    · simp only [setKey, if_neg hp, List.map_cons, List.nodup_cons]
      refine ⟨?_, ih k v h.2⟩
      intro hmem
      rcases mem_keys_setKey ps k v p.1 hmem with hm | hm
      · exact h.1 hm
      · exact hp hm

theorem updateWithStored_keys_nodup :
    ∀ (es : List WorldEntity) (l : DocumentLedger),
      keysNodup l → keysNodup (l.updateWithStored es) := by
  intro es
  induction es with
  | nil => intro l h; exact h
  | cons e es ih =>
    intro l h
    exact ih ⟨setKey l.entities (pyKey e.name) e⟩ (setKey_keys_nodup l.entities _ e h)

theorem registerEntities_keys_nodup_state :
    ∀ (es : List WorldEntity) (l : DocumentLedger),
      keysNodup l → keysNodup (l.registerEntities es).1 := by
  intro es l h
  unfold keysNodup
  rw [registerEntities_fst_eq, List.map_append]
  rw [List.nodup_append]
  refine ⟨h, ?_, ?_⟩
  · rw [List.map_map]
    exact registerEntities_keys_nodup es l
  · intro a ha hb
    rw [List.map_map] at hb
    rcases List.mem_map.mp hb with ⟨x, hx, hxa⟩
    have hfr := registerEntities_fresh es l x hx
    have hxa' : pyKey x.name = a := hxa
    rw [hxa'] at hfr
    have htrue : hasKey l.entities a = true := (hasKey_iff_mem l.entities a).mpr ha
    rw [htrue] at hfr
    exact absurd hfr (by simp)

theorem find?_append_left {α : Type} {p : α → Bool} {l₁ l₂ : List α} {a : α}
    (h : l₁.find? p = some a) : (l₁ ++ l₂).find? p = some a := by
  induction l₁ with
  | nil => exact absurd h (by simp)
  | cons x l ih =>
    cases hpx : p x with
    | true =>
      rw [List.find?_cons_of_pos _ hpx] at h
      rw [List.cons_append, List.find?_cons_of_pos _ hpx]
      exact h
    | false =>
      rw [List.find?_cons_of_neg _ (by simp [hpx])] at h
      rw [List.cons_append, List.find?_cons_of_neg _ (by simp [hpx])]
      exact ih h

theorem registerEntities_getKey_preserved (l : DocumentLedger) (es : List WorldEntity)
    (k : String) (hk : hasKey l.entities k = true) :
    getKey (l.registerEntities es).1.entities k = getKey l.entities k := by
  have hsome : (l.entities.find? (fun p => p.1 == k)).isSome := by
    rw [List.find?_isSome]
    simp only [hasKey, List.any_eq_true] at hk
    exact hk
  obtain ⟨p, hp⟩ := Option.isSome_iff_exists.mp hsome
  unfold getKey
  rw [registerEntities_fst_eq, find?_append_left hp, hp]

theorem getKey_setKey_self :
    ∀ (ps : List (String × WorldEntity)) (k : String) (v : WorldEntity),
      getKey (setKey ps k v) k = some v := by
  intro ps
  induction ps with
  | nil => intro k v; simp [setKey, getKey, List.find?_cons_of_pos]
  | cons p ps ih =>
    intro k v
    by_cases hp : p.1 = k
    · simp [setKey, if_pos hp, getKey, List.find?_cons_of_pos]
    · simp only [setKey, if_neg hp]
      unfold getKey
      rw [List.find?_cons_of_neg _ (by simp [hp])]
      exact ih k v

theorem getKey_cons (p : String × WorldEntity) (ps : List (String × WorldEntity)) (a : String) :
    getKey (p :: ps) a = if p.1 == a then some p.2 else getKey ps a := by
  unfold getKey
  cases hpa : p.1 == a <;> simp [List.find?_cons, hpa]

theorem getKey_setKey_other :
    ∀ (ps : List (String × WorldEntity)) (k : String) (v : WorldEntity) (a : String),
      a ≠ k → getKey (setKey ps k v) a = getKey ps a := by
  intro ps
  induction ps with
  | nil =>
    intro k v a ha
    unfold setKey
    rw [getKey_cons]
    have hka : ((k : String) == a) = false := by
      simp only [beq_eq_false_iff_ne, ne_eq]
      exact fun h => ha (Eq.symm h)
    simp [hka]
  | cons p ps ih =>
    intro k v a ha
    by_cases hp : p.1 = k
    · simp only [setKey, if_pos hp]
      rw [getKey_cons, getKey_cons]
      have hka : ((k : String) == a) = false := by
        simp only [beq_eq_false_iff_ne, ne_eq]
        exact fun h => ha (Eq.symm h)
      have hpa : (p.1 == a) = false := by rw [hp]; exact hka
      rw [hka, hpa]
      simp
    · simp only [setKey, if_neg hp]
      rw [getKey_cons, getKey_cons]
      cases hpa : (p.1 == a) with
      | true => simp [hpa]
      | false => simp [hpa, ih k v a ha]

theorem updateWithStored_getKey :
    ∀ (es : List WorldEntity) (l : DocumentLedger) (k : String),
      getKey (l.updateWithStored es).entities k
        = match lastWithKey es k with
          | some e => some e
          | none => getKey l.entities k := by
  intro es
  induction es with
  | nil => intro l k; simp [DocumentLedger.updateWithStored, lastWithKey]
  | cons e es ih =>
    intro l k
    have hstep : (l.updateWithStored (e :: es))
        = (DocumentLedger.mk (setKey l.entities (pyKey e.name) e)).updateWithStored es := rfl
    rw [hstep, ih]
    by_cases hk : pyKey e.name = k
    · cases hf : es.filter (fun x => pyKey x.name == k) with
      | nil =>
        have h1 : lastWithKey es k = none := by simp [lastWithKey, hf]
        have h2 : lastWithKey (e :: es) k = some e := by
          simp [lastWithKey, List.filter_cons, hk, hf]
        rw [h1, h2]
        simp only []
        rw [← hk, getKey_setKey_self]
      | cons y ys =>
        have h1 : lastWithKey es k = (y :: ys).getLast? := by simp [lastWithKey, hf]
        have h2 : lastWithKey (e :: es) k = (y :: ys).getLast? := by
          simp [lastWithKey, List.filter_cons, hk, hf, List.getLast?_cons_cons]
        rw [h1, h2]
        obtain ⟨z, hz⟩ := Option.isSome_iff_exists.mp
          (show (y :: ys).getLast?.isSome by simp [List.getLast?_isSome])
        rw [hz]
    · have h2 : lastWithKey (e :: es) k = lastWithKey es k := by
        simp [lastWithKey, List.filter_cons, hk]
      rw [h2]
      cases lastWithKey es k with
      | some x => simp
      | none => simp only []; rw [getKey_setKey_other _ _ _ _ (fun h => hk h.symm)]

end Worldbuild

namespace Worldbuild

/-- Relation with null endpoint names and null endpoint ids. -/
def nullRel : Relation := ⟨none, "related_to", none, none, none, none, none, []⟩

/-- Entity whose name is whitespace only, so its normalized key is empty. -/
def wsEntity : WorldEntity := ⟨some 9, none, .location, " ", "desc", []⟩

/-- Relation whose endpoint names are the empty string with null ids. -/
def emptyNameRel : Relation := ⟨none, "knows", none, some "", none, some "", none, []⟩

/-- C6 counterexample: registering a second entity with the same normalized
name keeps the first record, so a later registration does not win lookups. -/
theorem ledger_last_registered_refuted :
    getKey (((DocumentLedger.empty.registerEntities [alphaEntity]).1.registerEntities
        [alphaVariant]).1).entities "alpha" = some alphaEntity
    ∧ alphaEntity ≠ alphaVariant := by
  decide

/-- C6 amended: the ledger holds at most one entity per normalized name,
initially and after every register_entities and update_with_stored call (and
resolve_relations reads the state without changing it); for lookups the
record stored under a key is the first-registered entity until
update_with_stored overwrites it, where the last update for a key wins; and
registration order determines which duplicate candidates are reported as
novel. -/
theorem ledger_key_unique_invariant :
    keysNodup DocumentLedger.empty
    ∧ (∀ (l : DocumentLedger) (es : List WorldEntity),
        keysNodup l → keysNodup (l.registerEntities es).1)
    ∧ (∀ (l : DocumentLedger) (es : List WorldEntity),
        keysNodup l → keysNodup (l.updateWithStored es))
    ∧ (∀ (l : DocumentLedger) (es : List WorldEntity) (k : String),
        hasKey l.entities k = true →
        getKey (l.registerEntities es).1.entities k = getKey l.entities k)
    ∧ (∀ (l : DocumentLedger) (es : List WorldEntity) (k : String),
        getKey (l.updateWithStored es).entities k
          = match lastWithKey es k with
            | some e => some e
            | none => getKey l.entities k)
    ∧ (∀ (l : DocumentLedger) (es : List WorldEntity),
        (l.registerEntities es).2 = novelFilter (ledgerKeys l) es) := by
  refine ⟨by simp [keysNodup, DocumentLedger.empty], ?_, ?_, ?_, ?_, ?_⟩
  · exact fun l es h => registerEntities_keys_nodup_state es l h
  · exact fun l es h => updateWithStored_keys_nodup es l h
  · exact fun l es k hk => registerEntities_getKey_preserved l es k hk
  · exact fun l es k => updateWithStored_getKey es l k
  · exact fun l es => registerEntities_snd_eq_novelFilter l es

/-- Closed instance of C6: the invariant after registering and updating, and
the update lookup giving the stored Alpha with id 42. -/
theorem ledger_key_unique_invariant_witness :
    keysNodup ((DocumentLedger.empty.registerEntities [alphaEntity, betaEntity]).1)
    ∧ keysNodup (((DocumentLedger.empty.registerEntities
        [alphaEntity, betaEntity]).1).updateWithStored [alpha42])
    ∧ getKey (((DocumentLedger.empty.registerEntities
        [alphaEntity, betaEntity]).1).updateWithStored [alpha42]).entities "alpha"
        = match lastWithKey [alpha42] "alpha" with
          | some e => some e
          | none => getKey ((DocumentLedger.empty.registerEntities
              [alphaEntity, betaEntity]).1).entities "alpha" :=
  ⟨ledger_key_unique_invariant.2.1 DocumentLedger.empty [alphaEntity, betaEntity]
      (by simp [keysNodup, DocumentLedger.empty]),
   ledger_key_unique_invariant.2.2.1 (DocumentLedger.empty.registerEntities
      [alphaEntity, betaEntity]).1 [alpha42]
      (ledger_key_unique_invariant.2.1 DocumentLedger.empty [alphaEntity, betaEntity]
        (by simp [keysNodup, DocumentLedger.empty])),
   ledger_key_unique_invariant.2.2.2.2.1 (DocumentLedger.empty.registerEntities
      [alphaEntity, betaEntity]).1 [alpha42] "alpha"⟩

theorem registerEntities_snd_length_le :
    ∀ (es : List WorldEntity) (l : DocumentLedger),
      (l.registerEntities es).2.length ≤ es.length := by
  intro es
  induction es with
  | nil => intro l; simp [DocumentLedger.registerEntities]
  | cons e es ih =>
    intro l
    cases hk : hasKey l.entities (pyKey e.name) with
    | true =>
      rw [registerEntities_cons_true hk]
      exact Nat.le_succ_of_le (ih l)
    | false =>
      rw [registerEntities_cons_false hk]
      simpa using ih ⟨l.entities ++ [(pyKey e.name, e)]⟩

/-- C7: the ledger operations are total functions of their inputs: every
call returns a value (register returns at most one output per candidate,
resolve returns one output per input), and resolving a relation whose names
and ids are all null returns null endpoint ids without error. -/
theorem ledger_operations_total :
    (∀ (l : DocumentLedger) (rs : List Relation),
      (l.resolveRelations rs).length = rs.length)
    ∧ (∀ (l : DocumentLedger) (es : List WorldEntity),
      (l.registerEntities es).2.length ≤ es.length)
    ∧ (∀ (l : DocumentLedger),
      (l.resolveRelation nullRel).subject_entity_id = none
        ∧ (l.resolveRelation nullRel).object_entity_id = none) :=
  ⟨fun l rs => List.length_map rs l.resolveRelation,
   fun l es => registerEntities_snd_length_le es l,
   fun _ => ⟨rfl, rfl⟩⟩

/-- C10: an endpoint whose id is null and whose name is the empty string is
not looked up at all, so the id stays null and the name is preserved, even
when an entity whose normalized name is empty is held by the ledger. -/
theorem empty_name_lookup_skipped :
    (∀ (l : DocumentLedger), l.lookup none (some "") = none)
    ∧ (∀ (l : DocumentLedger) (r : Relation),
        r.subject_entity_id = none → r.subject_name = some "" →
        (l.resolveRelation r).subject_entity_id = none
          ∧ (l.resolveRelation r).subject_name = some "")
    ∧ (∀ (l : DocumentLedger) (r : Relation),
        r.object_entity_id = none → r.object_name = some "" →
        (l.resolveRelation r).object_entity_id = none
          ∧ (l.resolveRelation r).object_name = some "")
    ∧ (getKey ((DocumentLedger.empty.registerEntities [wsEntity]).1).entities ""
        = some wsEntity
      ∧ ((DocumentLedger.empty.registerEntities [wsEntity]).1.resolveRelation
          emptyNameRel).subject_entity_id = none
      ∧ ((DocumentLedger.empty.registerEntities [wsEntity]).1.resolveRelation
          emptyNameRel).object_entity_id = none) := by
  refine ⟨fun l => rfl, ?_, ?_, by decide⟩
  · intro l r h1 h2
    refine ⟨?_, ?_⟩
    · simp [DocumentLedger.resolveRelation, DocumentLedger.lookup, h1, h2]
    · rw [resolveRelation_subject_name]
      exact h2
  · intro l r h1 h2
    refine ⟨?_, ?_⟩
    · simp [DocumentLedger.resolveRelation, DocumentLedger.lookup, h1, h2]
    · rw [resolveRelation_object_name]
      exact h2

/-- Closed instance of C10 on the empty-name relation over a ledger holding
a whitespace-named entity. -/
theorem empty_name_lookup_skipped_witness :
    ((DocumentLedger.empty.registerEntities [wsEntity]).1.resolveRelation
        emptyNameRel).subject_entity_id = none
    ∧ ((DocumentLedger.empty.registerEntities [wsEntity]).1.resolveRelation
        emptyNameRel).subject_name = some "" :=
  empty_name_lookup_skipped.2.1 (DocumentLedger.empty.registerEntities [wsEntity]).1
    emptyNameRel rfl rfl

end Worldbuild

/-- C8 counterexample: faction is not the value of any member of the
worldbuild EntityType enum, while the claim requires all seven tags. -/
theorem entity_type_seven_values_refuted :
    (Worldbuild.allEntityTypes.map Worldbuild.EntityType.value)
        = ["character", "location", "organization", "item"]
    ∧ "faction" ∉ Worldbuild.allEntityTypes.map Worldbuild.EntityType.value := by
  decide

/-- C8 amended: the resonance EntityType carries exactly the seven category
tags character, location, organization, item, faction, event, concept, while
the worldbuild EntityType carries exactly the first four of them. -/
theorem entity_type_closed_sets :
    (∀ t : Resonance.EntityType, t.value ∈ Resonance.specCategoryTags)
    ∧ (∀ s, s ∈ Resonance.specCategoryTags → ∃ t : Resonance.EntityType, t.value = s)
    ∧ (∀ t : Resonance.EntityType, t ∈ Resonance.allEntityTypes)
    ∧ (∀ t : Worldbuild.EntityType, t ∈ Worldbuild.allEntityTypes)
    ∧ (∀ t : Worldbuild.EntityType,
        t.value ∈ ["character", "location", "organization", "item"])
    ∧ (∀ s, s ∈ ["character", "location", "organization", "item"] →
        ∃ t : Worldbuild.EntityType, t.value = s) := by
  refine ⟨?_, ?_, ?_, ?_, ?_, ?_⟩
  · intro t
    cases t <;> simp [Resonance.EntityType.value, Resonance.specCategoryTags]
  · intro s hs
    simp only [Resonance.specCategoryTags, List.mem_cons, List.not_mem_nil, or_false] at hs
    rcases hs with h | h | h | h | h | h | h <;> subst h
    exacts [⟨.character, rfl⟩, ⟨.location, rfl⟩, ⟨.organization, rfl⟩, ⟨.item, rfl⟩,
      ⟨.faction, rfl⟩, ⟨.event, rfl⟩, ⟨.concept, rfl⟩]
  · intro t
    cases t <;> simp [Resonance.allEntityTypes]
  · intro t
    cases t <;> simp [Worldbuild.allEntityTypes]
  · intro t
    cases t <;> simp [Worldbuild.EntityType.value]
  · intro s hs
    simp only [List.mem_cons, List.not_mem_nil, or_false] at hs
    rcases hs with h | h | h | h <;> subst h
    exacts [⟨.character, rfl⟩, ⟨.location, rfl⟩, ⟨.organization, rfl⟩, ⟨.item, rfl⟩]

/-- Closed instance of C8: faction is a resonance tag and a resonance
EntityType value. -/
theorem entity_type_closed_sets_witness :
    Resonance.EntityType.value .faction ∈ Resonance.specCategoryTags
    ∧ ∃ t : Resonance.EntityType, Resonance.EntityType.value t = "faction" :=
  ⟨entity_type_closed_sets.1 .faction, entity_type_closed_sets.2.1 "faction" (by decide)⟩

/-- C9 counterexample: wrapping a long paragraph rewrites its whitespace, so
a chunk need not occur in the source text at all, and the chunks cannot
jointly cover the source. -/
theorem chunker_covering_refuted :
    Resonance.chunk 10 "aa bb\ncc dd" = some ["aa bb cc", "dd"]
    ∧ Resonance.occursIn "aa bb cc" "aa bb\ncc dd" = false := by
  decide

theorem collectChunks_total (maxChars : Nat) (h : maxChars ≠ 0) :
    ∀ (ps : List String), ∃ cs, Resonance.collectChunks maxChars ps = some cs := by
  intro ps
  induction ps with
  | nil => exact ⟨[], rfl⟩
  | cons p ps ih =>
    obtain ⟨cs, hcs⟩ := ih
    by_cases hp : p.length ≤ maxChars
    · refine ⟨[p] ++ cs, ?_⟩
      simp [Resonance.collectChunks, if_pos hp, hcs]
    · have hw : ∃ ys, Resonance.pyWrap maxChars p = some ys := by
        unfold Resonance.pyWrap
        rw [if_neg h]
        exact ⟨_, rfl⟩
      obtain ⟨ys, hys⟩ := hw
      refine ⟨ys ++ cs, ?_⟩
      simp [Resonance.collectChunks, if_neg hp, hys, hcs]

theorem chunk_eq_of_collect (maxChars : Nat) (text : String) (cs : List String)
    (h : Resonance.collectChunks maxChars
        (((Resonance.splitParas text.data []).map (fun p => pyStrip ⟨p⟩)).filter
          (fun p => p ≠ "")) = some cs) :
    Resonance.chunk maxChars text = some (Resonance.pyListOr cs [text]) := by
  unfold Resonance.chunk
  simp only [h]

/-- C9 amended: for every positive size limit and input text the chunker
returns a non-empty ordered sequence of strings (at width zero textwrap
raises a ValueError on any over-long paragraph instead of returning, so the
limit must be positive); paragraphs beyond the limit are re-wrapped with
whitespace normalized, so chunk contents need not occur verbatim in the
source text nor jointly cover it. -/
theorem chunk_returns_nonempty :
    (∀ (maxChars : Nat) (text : String), 0 < maxChars →
      ∃ cs, Resonance.chunk maxChars text = some cs ∧ 0 < cs.length)
    ∧ Resonance.chunk 0 "abc" = none := by
  constructor
  · intro maxChars text h
    obtain ⟨cs, hcs⟩ := collectChunks_total maxChars (Nat.pos_iff_ne_zero.mp h) _
    refine ⟨Resonance.pyListOr cs [text], chunk_eq_of_collect maxChars text cs hcs, ?_⟩
    cases cs with
    | nil => simp [Resonance.pyListOr]
    | cons c cs => simp [Resonance.pyListOr]
  · decide

/-- Closed instance of C5 on a singleton relation list. -/
theorem resolve_relations_idempotent_witness :
    Worldbuild.DocumentLedger.empty.resolveRelations
        (Worldbuild.DocumentLedger.empty.resolveRelations [Worldbuild.ghostRel])
      = Worldbuild.DocumentLedger.empty.resolveRelations [Worldbuild.ghostRel] :=
  Worldbuild.resolve_relations_idempotent Worldbuild.DocumentLedger.empty [Worldbuild.ghostRel]

/-- Closed instance of C7 on the all-null relation. -/
theorem ledger_operations_total_witness :
    (Worldbuild.DocumentLedger.empty.resolveRelations [Worldbuild.nullRel]).length
        = [Worldbuild.nullRel].length
    ∧ (Worldbuild.DocumentLedger.empty.resolveRelation
        Worldbuild.nullRel).subject_entity_id = none :=
  ⟨Worldbuild.ledger_operations_total.1 Worldbuild.DocumentLedger.empty [Worldbuild.nullRel],
   (Worldbuild.ledger_operations_total.2.2 Worldbuild.DocumentLedger.empty).1⟩

/-- Closed instance of C9 at the default limit 800 on the empty text. -/
theorem chunk_returns_nonempty_witness :
    0 < 800 ∧ ∃ cs, Resonance.chunk 800 "" = some cs ∧ 0 < cs.length :=
  ⟨by decide, chunk_returns_nonempty.1 800 "" (by decide)⟩
